import Mathlib

/-!
Verification of pontos' licence-header updater
(`src/pontos/updateheader/updateheader.py`).

File contents are modelled as `List Char` (one `Char` per byte of the
decoded text; the files the tool processes are ASCII-decodable text, so
character offsets and byte offsets coincide, as `_update_file` itself
assumes when it computes `fp.tell() - len(line)`).

The copyright pattern compiled in `main`,

    [Cc]opyright.*?(19[0-9]{2}|20[0-9]{2}) ?-? ?(19[0-9]{2}|20[0-9]{2})? (company)

is embedded as a specialised backtracking matcher with Python `re.search`
semantics: leftmost starting position wins, `.*?` is lazy and `.` does not
match a newline, the optional quantifiers are greedy, and `re.sub`
replaces every non-overlapping match left to right.
-/

namespace Pontos

abbrev Chars := List Char

/-- Python string `<`: lexicographic comparison of code points
(`copyright_match["creation_year"] < args.year` in `_update_file`). -/
def strLt : Chars → Chars → Bool
  | [], [] => false
  | [], _ :: _ => true
  | _ :: _, [] => false
  | a :: as, b :: bs =>
    if a.toNat < b.toNat then true
    else if b.toNat < a.toNat then false
    else strLt as bs

/-- The regex character class `[0-9]` (ASCII codes 48..57). -/
def isDig (c : Char) : Bool := 48 ≤ c.toNat && c.toNat ≤ 57

/-- Four characters forming `19[0-9]{2}|20[0-9]{2}`. -/
def isYearDigits : Chars → Bool
  | [a, b, c, d] =>
    ((a = '1' && b = '9') || (a = '2' && b = '0')) && isDig c && isDig d
  | _ => false

/-- Match the year alternation `(19[0-9]{2}|20[0-9]{2})` at the head of the
input, returning the four year characters and the remainder. -/
def parseYear : Chars → Option (Chars × Chars)
  | a :: b :: c :: d :: r =>
    if isYearDigits [a, b, c, d] then some ([a, b, c, d], r) else none
  | _ => none

/-- The two remainders an optional greedy single-character quantifier
(` ?` or `-?`) leaves, in backtracking priority order: consume first. -/
def optChar (ch : Char) : Chars → List Chars
  | c :: r => if c = ch then [r, c :: r] else [c :: r]
  | [] => [[]]

/-- Finish a match: the mandatory space, then the literal company group.
Returns the captured optional modification year and the remainder after
the whole match. -/
def finishMatch (company : Chars) (my : Option Chars) : Chars → Option (Option Chars × Chars)
  | c :: r =>
    if c = ' ' && company.isPrefixOf r then some (my, r.drop company.length)
    else none
  | [] => none

/-- First defined value in backtracking priority order. -/
def firstSome {α : Type} : List (Option α) → Option α
  | [] => none
  | some a :: _ => some a
  | none :: l => firstSome l

/-- All backtracking alternatives of ` ?-? ?(19[0-9]{2}|20[0-9]{2})? (company)`
after the creation year, in engine priority order. -/
def tailCandidates (company : Chars) (s : Chars) : List (Option (Option Chars × Chars)) :=
  (optChar ' ' s).flatMap fun s1 =>
    (optChar '-' s1).flatMap fun s2 =>
      (optChar ' ' s2).flatMap fun s3 =>
        match parseYear s3 with
        | some (y2, s4) => [finishMatch company (some y2) s4, finishMatch company none s3]
        | none => [finishMatch company none s3]

/-- Match the pattern after the creation year. -/
def tailMatch (company : Chars) (s : Chars) : Option (Option Chars × Chars) :=
  firstSome (tailCandidates company s)

/-- A successful match: the three captured groups of `_find_copyright`
(the company group always captures the literal company string) plus the
input remainder after the match. -/
structure CMatch where
  creation : Chars
  modif : Option Chars
  rest : Chars
deriving Repr, DecidableEq

/-- The lazy `.*?` loop: at each position first try the year-and-tail
continuation, else advance one non-newline character. -/
def lazyScan (company : Chars) : Chars → Option CMatch
  | [] => none
  | c :: r =>
    match parseYear (c :: r) with
    | some (y1, v) =>
      match tailMatch company v with
      | some (my, rest) => some ⟨y1, my, rest⟩
      | none => if c = '\n' then none else lazyScan company r
    | none => if c = '\n' then none else lazyScan company r

def copTail : Chars := ['o', 'p', 'y', 'r', 'i', 'g', 'h', 't']

/-- Try the whole pattern anchored at the current position:
`[Cc]opyright` literally, then the lazy scan. -/
def matchCopyrightAt (company : Chars) : Chars → Option CMatch
  | [] => none
  | c :: r =>
    if (c = 'C' || c = 'c') && copTail.isPrefixOf r then
      lazyScan company (r.drop 8)
    else none

/-- Model of `re.search`: try the anchored match at every position, leftmost first. -/
def searchCopyright (company : Chars) : Chars → Option CMatch
  | [] => none
  | c :: r =>
    match matchCopyrightAt company (c :: r) with
    | some m => some m
    | none => searchCopyright company r

/-- Model of `re.sub(regex, repl, s)`: replace every non-overlapping match, left to
right.  Fuel-indexed (a match always consumes at least one character, so
`s.length` fuel is exact). -/
def subCopyrightFuel (company repl : Chars) : Nat → Chars → Chars
  | 0, s => s
  | _ + 1, [] => []
  | fuel + 1, c :: r =>
    match matchCopyrightAt company (c :: r) with
    | some m => repl ++ subCopyrightFuel company repl fuel m.rest
    | none => c :: subCopyrightFuel company repl fuel r

def subCopyright (company repl s : Chars) : Chars :=
  subCopyrightFuel company repl s.length s

/-- Model of `fp.readline()`: the next line including its newline (or the rest of
the content if it has no newline), and the remainder. -/
def readLine : Chars → Chars × Chars
  | [] => ([], [])
  | c :: r =>
    if c = '\n' then ([c], r)
    else
      let p := readLine r
      (c :: p.1, p.2)

/-- The `while not found and i > 0` scan of `_update_file`: read up to
`fuel` lines (10 in the code) looking for the first line the pattern
matches.  Returns the content before the matched line, the matched line,
the match, and the content after the matched line; `none` when no line of
the window matches (including reaching end of file early). -/
def scanHeader (company : Chars) : Nat → Chars → Option (Chars × Chars × CMatch × Chars)
  | 0, _ => none
  | fuel + 1, content =>
    let line := (readLine content).1
    let rest := (readLine content).2
    if line = [] then none
    else
      match searchCopyright company line with
      | some m => some ([], line, m, rest)
      | none =>
        match scanHeader company fuel rest with
        | some (p, l, m, r) => some (line ++ p, l, m, r)
        | none => none

/-- The staleness condition of `_update_file` (lines 173-178):
`not modification_year and creation_year < args.year or
 modification_year and modification_year < args.year`,
with Python string comparison. -/
def staleDecision (creation : Chars) (modif : Option Chars) (year : Chars) : Bool :=
  match modif with
  | none => strLt creation year
  | some my => strLt my year

/-- The supported extensions (`SUPPORTED_FILE_TYPES` in the source). -/
def SUPPORTED_FILE_TYPES : List Chars :=
  [".bash", ".c", ".h", ".go", ".cmake", ".js", ".nasl", ".po", ".py",
   ".sh", ".txt", ".xml", ".xsl"].map String.toList

/-- Python `str.replace(pat, repl)`: every non-overlapping occurrence,
left to right (fuel-indexed; `pat` is never empty at the call sites). -/
def replaceAllFuel (pat repl : Chars) : Nat → Chars → Chars
  | 0, s => s
  | _ + 1, [] => []
  | fuel + 1, c :: r =>
    if pat ≠ [] ∧ pat.isPrefixOf (c :: r) then
      repl ++ replaceAllFuel pat repl fuel ((c :: r).drop pat.length)
    else c :: replaceAllFuel pat repl fuel r

def replaceAll (pat repl s : Chars) : Chars := replaceAllFuel pat repl s.length s

/-- The three ways `_add_header` can come out: a rendered template, a
`ValueError` (unsupported extension), or a `FileNotFoundError` (template
file missing for the licence). -/
inductive AddHeaderResult where
  | rendered (text : Chars)
  | valueErr
  | missingTemplate
deriving Repr, DecidableEq

/-- Model of `_add_header`: supported suffix, template lookup keyed by licence and
suffix (the template store is a parameter: the `templates/` resource files
are not part of the staged sources), then `<company>` and `<year>`
substitution, in that order. -/
def addHeader (templates : Chars → Chars → Option Chars)
    (suffix licence company year : Chars) : AddHeaderResult :=
  if suffix ∈ SUPPORTED_FILE_TYPES then
    match templates licence suffix with
    | some t =>
      .rendered (replaceAll "<year>".toList year (replaceAll "<company>".toList company t))
    | none => .missingTemplate
  else .valueErr

/-- Per-file outcomes of `_update_file` on a readable text file. -/
inductive Outcome where
  | headerAdded
  | noHeaderForType
  | licenceFileMissing
  | emptyHeader
  | yearUpdated
  | alreadyCurrent
deriving Repr, DecidableEq

structure UpdateResult where
  content : Chars
  outcome : Outcome
deriving Repr, DecidableEq

/-- The replacement string built in `_update_file`:
`Copyright (C) <creation_year>-<args.year> <company>`. -/
def copyrightTerm (creation year company : Chars) : Chars :=
  "Copyright (C) ".toList ++ creation ++ '-' :: year ++ ' ' :: company

/-- Overwrite `data` into `old` at offset `pos` without truncating, the
effect of `fp.seek(pos); fp.write(data)` on an open file. -/
def writeAt (old : Chars) (pos : Nat) (data : Chars) : Chars :=
  old.take pos ++ data ++ old.drop (pos + data.length)

/-- Model of `_update_file` on the content of an open readable text file (the
`changed`-mode year resolution, which happens before the file is opened,
is modelled separately).

* no match in the first 10 lines: `_add_header`, and on a rendered
  non-empty header `fp.seek(0)`, write header, `'\n'`, then the original
  content;
* a match: if stale, `re.sub` the matched line, seek back to the start of
  that line and write the new line followed by the rest of the file —
  with no truncation, exactly as the code does;
* otherwise the file is left as it is. -/
def updateFileContent (templates : Chars → Chars → Option Chars)
    (company year licence suffix : Chars) (content : Chars) : UpdateResult :=
  match scanHeader company 10 content with
  | none =>
    match addHeader templates suffix licence company year with
    | .rendered h =>
      if h = [] then ⟨content, .emptyHeader⟩
      else ⟨h ++ '\n' :: content, .headerAdded⟩
    | .valueErr => ⟨content, .noHeaderForType⟩
    | .missingTemplate => ⟨content, .licenceFileMissing⟩
  | some (p, line, m, rest) =>
    if staleDecision m.creation m.modif year then
      ⟨writeAt content p.length
        (subCopyright company (copyrightTerm m.creation year company) line ++ rest),
       .yearUpdated⟩
    else ⟨content, .alreadyCurrent⟩

/-- Result of `_get_modified_year` (the `git log` lookup): a year string,
or the `CalledProcessError` it re-raises. -/
inductive GitYear where
  | year (y : Chars)
  | failed
deriving Repr, DecidableEq

/-- The year-resolution step at the top of `_update_file` (lines 127-134).
In `changed` mode a successful lookup executes `args.year = _get_modified_year(file)`,
assigning into the shared `args` namespace; on `CalledProcessError` the
code warns and keeps whatever `args.year` currently holds.  Returns the
year used for this file and the value of `args.year` after the call. -/
def resolveYear (changed : Bool) (git : GitYear) (argsYear : Chars) : Chars × Chars :=
  if changed then
    match git with
    | .year g => (g, g)
    | .failed => (argsYear, argsYear)
  else (argsYear, argsYear)

/-- Model of `main`'s per-file loop in `changed` mode, threading the mutable
`args.year` through `resolveYear`: for each file (identified by an index
into the batch, with `git` giving its lookup result) the year its update
uses. -/
def runChangedYears (git : Nat → GitYear) (argsYear : Chars) : List Nat → List (Nat × Chars)
  | [] => []
  | f :: fs =>
    let r := resolveYear true (git f) argsYear
    (f, r.1) :: runChangedYears git r.2 fs

/-- The exceptions that can escape `_update_file` into `main`'s loop. -/
inductive PyExc where
  | fileNotFound
  | unicodeDecode
  | valueError
  | osError
deriving Repr, DecidableEq

/-- A batch entry as `main`'s loop sees it: a readable text file with a
content and an extension, or one whose processing raises. -/
inductive FileState where
  | text (content : Chars) (suffix : Chars)
  | missing
  | binary
  | unreadable
deriving Repr, DecidableEq

/-- One iteration of `main`'s loop body on a non-excluded file: the
outcome `_update_file` reports, or the exception escaping it
(`FileNotFoundError` and `UnicodeDecodeError` are re-raised by
`_update_file`; any other `OSError`, e.g. `PermissionError` on
`file.open("r+")`, is not handled anywhere). -/
def fileStep (templates : Chars → Chars → Option Chars)
    (company year licence : Chars) : FileState → Except PyExc Outcome
  | .text c sfx => .ok (updateFileContent templates company year licence sfx c).outcome
  | .missing => .error .fileNotFound
  | .binary => .error .unicodeDecode
  | .unreadable => .error .osError

/-- Model of `main`'s `except (FileNotFoundError, UnicodeDecodeError, ValueError): continue`. -/
def caughtInMain : PyExc → Bool
  | .osError => false
  | _ => true

/-- The files of a batch that `main`'s loop actually processes: a caught
exception continues with the next file, an uncaught one propagates and
ends the run. -/
def processedFiles (templates : Chars → Chars → Option Chars)
    (company year licence : Chars) : List FileState → List FileState
  | [] => []
  | f :: fs =>
    match fileStep templates company year licence f with
    | .ok _ => f :: processedFiles templates company year licence fs
    | .error e =>
      if caughtInMain e then f :: processedFiles templates company year licence fs
      else [f]

/-- Python `str.strip()` on the whitespace characters it strips. -/
def isSpace (c : Char) : Bool :=
  c = ' ' || c = '\t' || c = '\n' || c = '\r' || c = '\x0b' || c = '\x0c'

def stripChars (s : Chars) : Chars :=
  ((s.dropWhile isSpace).reverse.dropWhile isSpace).reverse

/-- Python `str.split('\n')`. -/
def splitNl : Chars → List Chars
  | [] => [[]]
  | c :: r =>
    if c = '\n' then [] :: splitNl r
    else
      match splitNl r with
      | l :: ls => (c :: l) :: ls
      | [] => [[c]]

/-- The filesystem as `_get_exclude_list` and `main` query it. -/
structure FileSystem where
  isDir : Chars → Bool
  isFile : Chars → Bool
  rglob : Chars → Chars → List Chars
  absolute : Chars → Chars

/-- Model of `_get_exclude_list`: each non-empty line of the exclusion file,
stripped, is a glob pattern expanded against each root directory (outer
loop over directories, inner over lines); a matched directory contributes
every entry under it recursively (`path.rglob('*')`), a matched non-directory
itself; all as absolute paths.  `none` for the exclusion text models the
`FileNotFoundError` branch returning `[]`. -/
def getExcludeList (fs : FileSystem) (excludeText : Option Chars) (dirs : List Chars) : List Chars :=
  match excludeText with
  | none => []
  | some txt =>
    (dirs.flatMap fun d =>
        ((splitNl txt).filter (fun l => l ≠ [])).flatMap fun l =>
          fs.rglob d (stripChars l)).flatMap
      fun p => if fs.isDir p then (fs.rglob p ['*']).map fs.absolute else [fs.absolute p]

/-- Model of `main`'s file enumeration for `--directories`:
`file for directory in directories for file in directory.rglob("*") if file.is_file()`. -/
def enumFiles (fs : FileSystem) (dirs : List Chars) : List Chars :=
  dirs.flatMap fun d => (fs.rglob d ['*']).filter fs.isFile

/-- How `main` was invoked: `--files` or `--directories` (mutually
exclusive, one required). -/
inductive InputMode where
  | files (l : List Chars)
  | dirs (l : List Chars)

/-- What a run does before per-file processing: whether
`_get_exclude_list` ran (it reads the exclusion file), and which files
reach `_update_file` (those not skipped by the
`file.absolute() in exclude_list` test).  `exclude_list` starts `[]` and
is only assigned in the `--directories` branch. -/
structure MainRun where
  excludeListResolved : Bool
  opened : List Chars

def mainRun (fs : FileSystem) (excludeText : Option Chars) : InputMode → MainRun
  | .files l =>
    ⟨false, l.filter fun f => ¬ fs.absolute f ∈ ([] : List Chars)⟩
  | .dirs ds =>
    ⟨true, (enumFiles fs ds).filter fun f => ¬ fs.absolute f ∈ getExcludeList fs excludeText ds⟩

/-- Modelled from the spec: the template resource files under
`pontos/updateheader/templates/<licence>/template<suffix>` are not among
the staged sources.  Spec §6: templates are keyed by (extension, licence)
and contain the placeholders `<company>` and `<year>`; the §8 scenario
shows the rendered GPL-3.0-or-later Python template beginning with the
hash-commented copyright line.  We model that template. -/
def specTemplates (licence suffix : Chars) : Option Chars :=
  if licence = "GPL-3.0-or-later".toList ∧ suffix = ".py".toList then
    some ("# Copyright (C) <year> <company>\n#\n"
          ++ "# SPDX-License-Identifier: GPL-3.0-or-later\n").toList
  else none

/-! ## Theorems -/

/-- A sample filesystem for concrete runs: root `r` holds files `f` and
`g`; the exclusion glob `a` matches `f`. -/
def sampleFS : FileSystem where
  isDir := fun p => p = ['d']
  isFile := fun p => p ≠ ['d']
  rglob := fun d pat =>
    if d = ['r'] ∧ pat = ['a'] then [['f']]
    else if d = ['r'] ∧ pat = ['*'] then [['f'], ['g']]
    else []
  absolute := fun p => '/' :: p

/-- C9: with `--files` the exclusion file is never read (the
`--directories` branch alone calls `_get_exclude_list`), `exclude_list`
stays `[]`, and every listed file is opened. -/
theorem claim9_files_mode_no_exclusion (fs : FileSystem) (excludeText : Option Chars)
    (l : List Chars) :
    mainRun fs excludeText (.files l) = ⟨false, l⟩ := by
  simp [mainRun]

/-- C6: a file whose absolute path the exclusion patterns produce is never
passed to `_update_file` in a `--directories` run. -/
theorem claim6_excluded_never_opened (fs : FileSystem) (excludeText : Option Chars)
    (dirs : List Chars) (f : Chars)
    (h : fs.absolute f ∈ getExcludeList fs excludeText dirs) :
    f ∉ (mainRun fs excludeText (.dirs dirs)).opened := by
  intro hmem
  simp only [mainRun, List.mem_filter, decide_eq_true_eq] at hmem
  exact hmem.2 h

theorem claim6_witness : ['f'] ∉ (mainRun sampleFS (some ('a' :: ['\n'])) (.dirs [['r']])).opened :=
  claim6_excluded_never_opened sampleFS (some ('a' :: ['\n'])) [['r']] ['f'] (by decide)

/-- C4 counterexample: a `PermissionError`-style failure (any `OSError`
that is not a `FileNotFoundError`) is not in `main`'s `except` tuple, so
it ends the run: the second file of this batch is never processed. -/
theorem claim4_oserror_aborts_batch :
    processedFiles (fun _ _ => none) [] [] []
        [FileState.unreadable, FileState.text [] ('.' :: ['p', 'y'])]
      = [FileState.unreadable] := by
  decide

/-- C4 amended: every per-file error the code can classify — missing file,
undecodable content (both re-raised by `_update_file` and caught by
`main`), unsupported extension and missing template (both turned into
reported outcomes inside `_update_file`) — leaves the rest of the batch
processed; only a batch with no other kind of failure is fully processed. -/
theorem claim4_caught_errors_do_not_abort (templates : Chars → Chars → Option Chars)
    (company year licence : Chars) (batch : List FileState)
    (h : FileState.unreadable ∉ batch) :
    processedFiles templates company year licence batch = batch := by
  induction batch with
  | nil => rfl
  | cons f fs ih =>
    have hf : f ≠ FileState.unreadable := fun hh => h (hh ▸ List.mem_cons_self f fs)
    have hfs : FileState.unreadable ∉ fs := fun hh => h (List.mem_cons_of_mem f hh)
    cases f with
    | text c sfx => simp [processedFiles, fileStep, caughtInMain, ih hfs]
    | missing => simp [processedFiles, fileStep, caughtInMain, ih hfs]
    | binary => simp [processedFiles, fileStep, caughtInMain, ih hfs]
    | unreadable => exact absurd rfl hf

theorem claim4_caught_errors_witness :
    processedFiles (fun _ _ => none) [] [] []
        [FileState.missing, FileState.binary, FileState.text [] ('.' :: ['f', 'o', 'o'])]
      = [FileState.missing, FileState.binary, FileState.text [] ('.' :: ['f', 'o', 'o'])] :=
  claim4_caught_errors_do_not_abort (fun _ _ => none) [] [] [] _ (by decide)

/-- C5: `_update_file` assigns the git-derived year into the shared
`args` namespace, so when the lookup fails for a later file the fallback
is the previous file's year, not the configured one: configured year
`2023`, file 0's git year `2019`, file 1's lookup fails — file 1 is
updated with `2019`. -/
theorem claim5_year_leaks_across_files :
    runChangedYears (fun f => if f = 0 then .year ['2', '0', '1', '9'] else .failed)
        ['2', '0', '2', '3'] [0, 1]
      = [(0, ['2', '0', '1', '9']), (1, ['2', '0', '1', '9'])]
    ∧ (['2', '0', '1', '9'] : Chars) ≠ ['2', '0', '2', '3'] := by
  decide

/-- C2: the stale rewrite seeks back and writes the new line and the rest
of the file but never truncates, so when `re.sub` shortens the line (here
it normalises `Copyright    (C)` to `Copyright (C)`) the file keeps a
residue of its old last bytes: the tail after the matched line is
`body\n` before and `body\ndy\n` after. -/
theorem claim2_rewrite_leaves_residue :
    updateFileContent (fun _ _ => none) "Example Corp".toList "2023".toList []
        ".py".toList "# Copyright    (C) 2019-2021 Example Corp\nbody\n".toList
      = ⟨"# Copyright (C) 2019-2023 Example Corp\nbody\ndy\n".toList, .yearUpdated⟩
    ∧ "# Copyright (C) 2019-2023 Example Corp\nbody\ndy\n".toList
        ≠ "# Copyright (C) 2019-2023 Example Corp\nbody\n".toList := by
  constructor
  · rfl
  · decide

/-- The numeric value of a decimal digit string (most significant first). -/
def digitVal (c : Char) : Nat := c.toNat - 48

def natOfDigits : Chars → Nat
  | [] => 0
  | c :: r => digitVal c * 10 ^ r.length + natOfDigits r

theorem natOfDigits_lt_pow (l : Chars) (h : ∀ c ∈ l, isDig c = true) :
    natOfDigits l < 10 ^ l.length := by
  induction l with
  | nil => simp [natOfDigits]
  | cons c r ih =>
    have hc : digitVal c ≤ 9 := by
      have hm := h c (List.mem_cons_self c r)
      simp only [isDig, Bool.and_eq_true, decide_eq_true_eq] at hm
      simp only [digitVal]
      omega
    have hr := ih fun x hx => h x (List.mem_cons_of_mem c hx)
    have hp : 0 < 10 ^ r.length := Nat.pos_pow_of_pos _ (by omega)
    calc natOfDigits (c :: r) = digitVal c * 10 ^ r.length + natOfDigits r := rfl
      _ < digitVal c * 10 ^ r.length + 10 ^ r.length := by omega
      _ = (digitVal c + 1) * 10 ^ r.length := by ring
      _ ≤ 10 * 10 ^ r.length := Nat.mul_le_mul_right _ (by omega)
      _ = 10 ^ (c :: r).length := by
          simp [List.length_cons, pow_succ, Nat.mul_comm]

theorem strLt_eq_natOfDigits_lt : ∀ (a b : Chars), a.length = b.length →
    (∀ c ∈ a, isDig c = true) → (∀ c ∈ b, isDig c = true) →
    (strLt a b = true ↔ natOfDigits a < natOfDigits b)
  | [], [], _, _, _ => by simp [strLt, natOfDigits]
  | [], _ :: _, h, _, _ => by simp at h
  | _ :: _, [], h, _, _ => by simp at h
  | x :: xs, y :: ys, hlen, ha, hb => by
    have hxs : ∀ c ∈ xs, isDig c = true := fun c hc => ha c (List.mem_cons_of_mem x hc)
    have hys : ∀ c ∈ ys, isDig c = true := fun c hc => hb c (List.mem_cons_of_mem y hc)
    have hx := ha x (List.mem_cons_self x xs)
    have hy := hb y (List.mem_cons_self y ys)
    simp only [isDig, Bool.and_eq_true, decide_eq_true_eq] at hx hy
    have hn : xs.length = ys.length := by simpa using hlen
    have hA := natOfDigits_lt_pow xs hxs
    have hB := natOfDigits_lt_pow ys hys
    have hval : natOfDigits (x :: xs) = digitVal x * 10 ^ xs.length + natOfDigits xs := rfl
    have hvbl : natOfDigits (y :: ys) = digitVal y * 10 ^ xs.length + natOfDigits ys := by
      rw [natOfDigits, hn]
    rcases Nat.lt_trichotomy x.toNat y.toNat with hlt | heq | hgt
    · have hd : digitVal x < digitVal y := by simp only [digitVal]; omega
      have : natOfDigits (x :: xs) < natOfDigits (y :: ys) := by
        rw [hval, hvbl]
        calc digitVal x * 10 ^ xs.length + natOfDigits xs
            < digitVal x * 10 ^ xs.length + 10 ^ xs.length := by omega
          _ = (digitVal x + 1) * 10 ^ xs.length := by ring
          _ ≤ digitVal y * 10 ^ xs.length := Nat.mul_le_mul_right _ (by omega)
          _ ≤ digitVal y * 10 ^ xs.length + natOfDigits ys := Nat.le_add_right _ _
      simp [strLt, hlt, this]
    · have hne1 : ¬ x.toNat < y.toNat := by omega
      have hne2 : ¬ y.toNat < x.toNat := by omega
      have hd : digitVal x = digitVal y := by simp only [digitVal]; omega
      have ih := strLt_eq_natOfDigits_lt xs ys hn hxs hys
      simp only [strLt, hne1, hne2, if_false, if_true]
      rw [ih, hval, hvbl, hd]
      exact (Nat.add_lt_add_iff_left).symm
    · have hne1 : ¬ x.toNat < y.toNat := by omega
      have hd : digitVal y < digitVal x := by simp only [digitVal]; omega
      have : natOfDigits (y :: ys) < natOfDigits (x :: xs) := by
        rw [hval, hvbl]
        calc digitVal y * 10 ^ xs.length + natOfDigits ys
            < digitVal y * 10 ^ xs.length + 10 ^ xs.length := by
              rw [← hn] at hB; omega
          _ = (digitVal y + 1) * 10 ^ xs.length := by ring
          _ ≤ digitVal x * 10 ^ xs.length := Nat.mul_le_mul_right _ (by omega)
          _ ≤ digitVal x * 10 ^ xs.length + natOfDigits xs := Nat.le_add_right _ _
      simp [strLt, hne1, hgt]
      omega

/-- C10: the staleness test uses Python string `<` on the year strings.
On two 4-digit decimal years that agrees with numeric comparison, but a
3-digit target year such as `999` flips it: `"2019" < "999"`
lexicographically although 2019 > 999 numerically, so the code calls the
header stale where numeric comparison would not. -/
theorem claim10_string_year_comparison (cy ty : Chars)
    (hcy : ∀ c ∈ cy, isDig c = true) (hty : ∀ c ∈ ty, isDig c = true)
    (hlcy : cy.length = 4) (hlty : ty.length = 4) :
    (staleDecision cy none ty = true ↔ natOfDigits cy < natOfDigits ty)
    ∧ staleDecision ['2', '0', '1', '9'] none ['9', '9', '9'] = true
    ∧ ¬ natOfDigits ['2', '0', '1', '9'] < natOfDigits ['9', '9', '9'] := by
  refine ⟨?_, by decide, by decide⟩
  exact strLt_eq_natOfDigits_lt cy ty (hlcy.trans hlty.symm) hcy hty

theorem claim10_witness :
    ((staleDecision ['1', '9', '9', '8'] none ['2', '0', '1', '9'] = true
        ↔ natOfDigits ['1', '9', '9', '8'] < natOfDigits ['2', '0', '1', '9'])
      ∧ staleDecision ['2', '0', '1', '9'] none ['9', '9', '9'] = true
      ∧ ¬ natOfDigits ['2', '0', '1', '9'] < natOfDigits ['9', '9', '9']) :=
  claim10_string_year_comparison ['1', '9', '9', '8'] ['2', '0', '1', '9']
    (by decide) (by decide) (by decide) (by decide)

/-- C1: when one of the first 10 lines matches, the header is treated as
stale exactly when (no modification year and `creation_year < args.year`)
or (a modification year and `modification_year < args.year`), with
Python string comparison; not stale leaves outcome already-current and
the content byte-for-byte unchanged, stale reports year-updated. -/
theorem claim1_staleness_decision (templates : Chars → Chars → Option Chars)
    (company year licence suffix content p line : Chars) (m : CMatch) (rest : Chars)
    (h : scanHeader company 10 content = some (p, line, m, rest)) :
    ((updateFileContent templates company year licence suffix content).outcome
        = .alreadyCurrent
      ↔ ¬ ((m.modif = none ∧ strLt m.creation year = true)
           ∨ (m.modif ≠ none ∧ strLt (m.modif.getD []) year = true)))
    ∧ (¬ ((m.modif = none ∧ strLt m.creation year = true)
           ∨ (m.modif ≠ none ∧ strLt (m.modif.getD []) year = true))
        → (updateFileContent templates company year licence suffix content).content = content)
    ∧ (((m.modif = none ∧ strLt m.creation year = true)
           ∨ (m.modif ≠ none ∧ strLt (m.modif.getD []) year = true))
        → (updateFileContent templates company year licence suffix content).outcome
            = .yearUpdated) := by
  have hiff : (staleDecision m.creation m.modif year = true) ↔
      ((m.modif = none ∧ strLt m.creation year = true)
        ∨ (m.modif ≠ none ∧ strLt (m.modif.getD []) year = true)) := by
    cases hmo : m.modif with
    | none => simp [staleDecision]
    | some my => simp [staleDecision]
  by_cases hst : staleDecision m.creation m.modif year = true
  · have hd := hiff.mp hst
    have hu : updateFileContent templates company year licence suffix content
        = ⟨writeAt content p.length
            (subCopyright company (copyrightTerm m.creation year company) line ++ rest),
           .yearUpdated⟩ := by
      simp only [updateFileContent, h]
      rw [if_pos hst]
    rw [hu]
    simp [hd]
  · have hd : ¬ ((m.modif = none ∧ strLt m.creation year = true)
        ∨ (m.modif ≠ none ∧ strLt (m.modif.getD []) year = true)) :=
      fun hh => hst (hiff.mpr hh)
    have hu : updateFileContent templates company year licence suffix content
        = ⟨content, .alreadyCurrent⟩ := by
      simp only [updateFileContent, h]
      rw [if_neg hst]
    rw [hu]
    simp [hd]

theorem claim1_witness :
    (((updateFileContent (fun _ _ => none) "Example Corp".toList "2023".toList []
          ".py".toList "# Copyright (C) 2019-2023 Example Corp\n".toList).outcome
        = .alreadyCurrent
      ↔ ¬ (((some "2023".toList : Option Chars) = none
              ∧ strLt "2019".toList "2023".toList = true)
           ∨ ((some "2023".toList : Option Chars) ≠ none
              ∧ strLt ((some "2023".toList : Option Chars).getD []) "2023".toList = true)))
    ∧ (¬ (((some "2023".toList : Option Chars) = none
              ∧ strLt "2019".toList "2023".toList = true)
           ∨ ((some "2023".toList : Option Chars) ≠ none
              ∧ strLt ((some "2023".toList : Option Chars).getD []) "2023".toList = true))
        → (updateFileContent (fun _ _ => none) "Example Corp".toList "2023".toList []
            ".py".toList "# Copyright (C) 2019-2023 Example Corp\n".toList).content
            = "# Copyright (C) 2019-2023 Example Corp\n".toList)
    ∧ ((((some "2023".toList : Option Chars) = none
              ∧ strLt "2019".toList "2023".toList = true)
           ∨ ((some "2023".toList : Option Chars) ≠ none
              ∧ strLt ((some "2023".toList : Option Chars).getD []) "2023".toList = true))
        → (updateFileContent (fun _ _ => none) "Example Corp".toList "2023".toList []
            ".py".toList "# Copyright (C) 2019-2023 Example Corp\n".toList).outcome
            = .yearUpdated)) :=
  claim1_staleness_decision (fun _ _ => none) "Example Corp".toList "2023".toList []
    ".py".toList "# Copyright (C) 2019-2023 Example Corp\n".toList
    [] "# Copyright (C) 2019-2023 Example Corp\n".toList
    ⟨"2019".toList, some "2023".toList, ['\n']⟩ [] (by decide)

/-- C3: with no match in the first 10 lines and a supported extension
whose template exists (and renders non-empty), the file becomes the
rendered template, one extra newline, then the original content — also
for an empty input file. -/
theorem claim3_header_insertion (templates : Chars → Chars → Option Chars)
    (company year licence suffix content t : Chars)
    (hscan : scanHeader company 10 content = none)
    (hsfx : suffix ∈ SUPPORTED_FILE_TYPES)
    (ht : templates licence suffix = some t)
    (hne : replaceAll "<year>".toList year (replaceAll "<company>".toList company t) ≠ []) :
    updateFileContent templates company year licence suffix content
      = ⟨replaceAll "<year>".toList year (replaceAll "<company>".toList company t)
          ++ '\n' :: content, .headerAdded⟩ := by
  have haddh : addHeader templates suffix licence company year
      = .rendered (replaceAll "<year>".toList year
          (replaceAll "<company>".toList company t)) := by
    simp only [addHeader]
    rw [if_pos hsfx, ht]
  simp only [updateFileContent, hscan, haddh]
  rw [if_neg hne]

theorem claim3_witness :
    updateFileContent specTemplates "Example Corp".toList "2023".toList
        "GPL-3.0-or-later".toList ".py".toList []
      = ⟨replaceAll "<year>".toList "2023".toList
            (replaceAll "<company>".toList "Example Corp".toList
              ("# Copyright (C) <year> <company>\n#\n"
                ++ "# SPDX-License-Identifier: GPL-3.0-or-later\n").toList)
          ++ '\n' :: [], .headerAdded⟩ :=
  claim3_header_insertion specTemplates "Example Corp".toList "2023".toList
    "GPL-3.0-or-later".toList ".py".toList [] _ (by decide) (by decide) (by decide) (by decide)

/-! ### Matcher sufficiency lemmas -/

theorem optChar_self (ch : Char) (s : Chars) : s ∈ optChar ch s := by
  cases s with
  | nil => simp [optChar]
  | cons c r =>
    by_cases h : c = ch <;> simp [optChar, h]

theorem optChar_consume (ch : Char) (r : Chars) : r ∈ optChar ch (ch :: r) := by
  simp [optChar]

theorem firstSome_ne_none {α : Type} (l : List (Option α)) (x : α)
    (hx : some x ∈ l) : firstSome l ≠ none := by
  induction l with
  | nil => simp at hx
  | cons a as ih =>
    cases a with
    | some b => simp [firstSome]
    | none =>
      have : some x ∈ as := by simpa using hx
      simpa [firstSome] using ih this

theorem mem_tailCandidates (company s s1 s2 s3 : Chars) (x : Option Chars × Chars)
    (h1 : s1 ∈ optChar ' ' s) (h2 : s2 ∈ optChar '-' s1) (h3 : s3 ∈ optChar ' ' s2)
    (hx : some x ∈ (match parseYear s3 with
      | some (y2, s4) => [finishMatch company (some y2) s4, finishMatch company none s3]
      | none => [finishMatch company none s3])) :
    some x ∈ tailCandidates company s := by
  unfold tailCandidates
  exact List.mem_flatMap.mpr ⟨s1, h1,
    List.mem_flatMap.mpr ⟨s2, h2, List.mem_flatMap.mpr ⟨s3, h3, hx⟩⟩⟩

theorem tailMatch_ne_of_mem (company s : Chars) (x : Option Chars × Chars)
    (hx : some x ∈ tailCandidates company s) : tailMatch company s ≠ none :=
  firstSome_ne_none _ x hx

theorem isYearDigits_shape (y : Chars) (h : isYearDigits y = true) :
    ∃ a b c d, y = [a, b, c, d] := by
  cases y with
  | nil => simp [isYearDigits] at h
  | cons a t1 =>
    cases t1 with
    | nil => simp [isYearDigits] at h
    | cons b t2 =>
      cases t2 with
      | nil => simp [isYearDigits] at h
      | cons c t3 =>
        cases t3 with
        | nil => simp [isYearDigits] at h
        | cons d t4 =>
          cases t4 with
          | nil => exact ⟨a, b, c, d, rfl⟩
          | cons e t5 => simp [isYearDigits] at h

theorem parseYear_year (y r : Chars) (h : isYearDigits y = true) :
    parseYear (y ++ r) = some (y, r) := by
  obtain ⟨a, b, c, d, rfl⟩ := isYearDigits_shape y h
  simp only [List.cons_append, List.nil_append, parseYear]
  rw [if_pos h]

theorem parseYear_none_head (x : Char) (s : Chars) (h1 : x ≠ '1') (h2 : x ≠ '2') :
    parseYear (x :: s) = none := by
  cases s with
  | nil => rfl
  | cons b t2 =>
    cases t2 with
    | nil => rfl
    | cons c t3 =>
      cases t3 with
      | nil => rfl
      | cons d t4 => simp [parseYear, isYearDigits, h1, h2]

theorem finishMatch_app (company : Chars) (my : Option Chars) (r : Chars) :
    finishMatch company my (' ' :: (company ++ r)) = some (my, r) := by
  simp [finishMatch, List.isPrefixOf_iff_prefix, List.prefix_append, List.drop_left]

/-- The separator forms ` ?-? ?` can take. -/
def sepForms : List Chars := [[], [' '], ['-'], [' ', '-'], ['-', ' '], [' ', '-', ' ']]

/-- A successful tail match with no second year: it suffices to reach the
mandatory space and the company via the three optional quantifiers. -/
theorem tailMatch_ne_none_case (company s s1 s2 c : Chars)
    (h1 : s1 ∈ optChar ' ' s) (h2 : s2 ∈ optChar '-' s1)
    (h3 : (' ' :: (company ++ c)) ∈ optChar ' ' s2) :
    tailMatch company s ≠ none := by
  apply tailMatch_ne_of_mem company s (none, c)
  apply mem_tailCandidates company s s1 s2 (' ' :: (company ++ c)) (none, c) h1 h2 h3
  rw [parseYear_none_head ' ' _ (by decide) (by decide)]
  simp [finishMatch_app]

/-- A successful tail match with a second year at the third position. -/
theorem tailMatch_ne_some_case (company s s1 s2 y2 c : Chars)
    (hy : isYearDigits y2 = true)
    (h1 : s1 ∈ optChar ' ' s) (h2 : s2 ∈ optChar '-' s1)
    (h3 : (y2 ++ ' ' :: (company ++ c)) ∈ optChar ' ' s2) :
    tailMatch company s ≠ none := by
  apply tailMatch_ne_of_mem company s (some y2, c)
  apply mem_tailCandidates company s s1 s2 (y2 ++ ' ' :: (company ++ c)) (some y2, c) h1 h2 h3
  rw [parseYear_year y2 _ hy]
  simp [finishMatch_app]

theorem tailMatch_forms (company c sep : Chars) (oy2 : Option Chars)
    (hsep : sep ∈ sepForms)
    (hy2 : ∀ y2, oy2 = some y2 → isYearDigits y2 = true) :
    tailMatch company (sep ++ oy2.getD [] ++ ' ' :: (company ++ c)) ≠ none := by
  cases oy2 with
  | none =>
    simp only [Option.getD_none, List.append_nil]
    fin_cases hsep <;>
      simp only [List.nil_append, List.cons_append] <;>
      first
      | exact tailMatch_ne_none_case company _ _ _ c
          (optChar_self ' ' _) (optChar_self '-' _) (optChar_self ' ' _)
      | exact tailMatch_ne_none_case company _ _ _ c
          (optChar_consume ' ' _) (optChar_self '-' _) (optChar_self ' ' _)
      | exact tailMatch_ne_none_case company _ _ _ c
          (optChar_self ' ' _) (optChar_consume '-' _) (optChar_self ' ' _)
      | exact tailMatch_ne_none_case company _ _ _ c
          (optChar_consume ' ' _) (optChar_consume '-' _) (optChar_self ' ' _)
      | exact tailMatch_ne_none_case company _ _ _ c
          (optChar_self ' ' _) (optChar_consume '-' _) (optChar_consume ' ' _)
      | exact tailMatch_ne_none_case company _ _ _ c
          (optChar_consume ' ' _) (optChar_consume '-' _) (optChar_consume ' ' _)
  | some y2 =>
    have hy := hy2 y2 rfl
    simp only [Option.getD_some]
    fin_cases hsep <;>
      simp only [List.nil_append, List.cons_append, List.append_assoc] <;>
      first
      | exact tailMatch_ne_some_case company _ _ _ y2 c hy
          (optChar_self ' ' _) (optChar_self '-' _) (optChar_self ' ' _)
      | exact tailMatch_ne_some_case company _ _ _ y2 c hy
          (optChar_consume ' ' _) (optChar_self '-' _) (optChar_self ' ' _)
      | exact tailMatch_ne_some_case company _ _ _ y2 c hy
          (optChar_self ' ' _) (optChar_consume '-' _) (optChar_self ' ' _)
      | exact tailMatch_ne_some_case company _ _ _ y2 c hy
          (optChar_consume ' ' _) (optChar_consume '-' _) (optChar_self ' ' _)
      | exact tailMatch_ne_some_case company _ _ _ y2 c hy
          (optChar_self ' ' _) (optChar_consume '-' _) (optChar_consume ' ' _)
      | exact tailMatch_ne_some_case company _ _ _ y2 c hy
          (optChar_consume ' ' _) (optChar_consume '-' _) (optChar_consume ' ' _)

theorem lazyScan_hit (company s y1 v : Chars) (my : Option Chars) (r : Chars)
    (hpy : parseYear s = some (y1, v)) (ht : tailMatch company v = some (my, r)) :
    lazyScan company s = some ⟨y1, my, r⟩ := by
  cases s with
  | nil => simp [parseYear] at hpy
  | cons c cs => simp [lazyScan, hpy, ht]

theorem lazyScan_ne_of_hit (company s y1 v : Chars)
    (hpy : parseYear s = some (y1, v)) (ht : tailMatch company v ≠ none) :
    lazyScan company s ≠ none := by
  obtain ⟨⟨my, r⟩, hz⟩ := Option.ne_none_iff_exists'.mp ht
  rw [lazyScan_hit company s y1 v my r hpy hz]
  simp

theorem lazyScan_append_ne (company u v : Chars) (hu : ∀ c ∈ u, c ≠ '\n')
    (hv : lazyScan company v ≠ none) : lazyScan company (u ++ v) ≠ none := by
  induction u with
  | nil => simpa using hv
  | cons c us ih =>
    have hc : c ≠ '\n' := hu c (List.mem_cons_self c us)
    have hus : ∀ x ∈ us, x ≠ '\n' := fun x hx => hu x (List.mem_cons_of_mem c hx)
    show lazyScan company (c :: (us ++ v)) ≠ none
    cases hp : parseYear (c :: (us ++ v)) with
    | some yv =>
      obtain ⟨y1, w⟩ := yv
      cases htm : tailMatch company w with
      | some z => simp [lazyScan, hp, htm]
      | none => simpa [lazyScan, hp, htm, hc] using ih hus
    | none => simpa [lazyScan, hp, hc] using ih hus

theorem matchCopyrightAt_cop_ne (company : Chars) (c0 : Char) (w : Chars)
    (hc : c0 = 'C' ∨ c0 = 'c') (hw : lazyScan company w ≠ none) :
    matchCopyrightAt company (c0 :: (copTail ++ w)) ≠ none := by
  have hdrop : (copTail ++ w).drop 8 = w := List.drop_left copTail w
  have hpre : copTail.isPrefixOf (copTail ++ w) = true := by
    rw [ List.isPrefixOf_iff_prefix]
    exact List.prefix_append _ _
  rcases hc with h | h <;> simp [matchCopyrightAt, h, hpre, hdrop, hw]

theorem searchCopyright_append_ne (company a v : Chars)
    (hv : matchCopyrightAt company v ≠ none) (hvne : v ≠ []) :
    searchCopyright company (a ++ v) ≠ none := by
  induction a with
  | nil =>
    simp only [List.nil_append]
    cases v with
    | nil => exact absurd rfl hvne
    | cons c r =>
      cases hm : matchCopyrightAt company (c :: r) with
      | some m => simp [searchCopyright, hm]
      | none => exact absurd hm hv
  | cons x xs ih =>
    show searchCopyright company (x :: (xs ++ v)) ≠ none
    cases hm : matchCopyrightAt company (x :: (xs ++ v)) with
    | some m => simp [searchCopyright, hm]
    | none => simpa [searchCopyright, hm] using ih

/-- C8 counterexample: the pattern is `[Cc]opyright`, not a
case-insensitive `copyright`: this line has the word in upper case, a
4-digit year and the configured company, and the pattern does not match. -/
theorem claim8_uppercase_not_matched :
    searchCopyright "Example Corp".toList "# COPYRIGHT 2019 Example Corp\n".toList = none
    ∧ searchCopyright "Example Corp".toList "# Copyright 2019 Example Corp\n".toList ≠ none := by
  constructor
  · decide
  · decide

/-- C8 amended: the word is matched with only its first letter
case-varying (`Copyright` or `copyright`).  Any line consisting of
arbitrary text, the word, arbitrary non-newline text, a 4-digit year in
19xx/20xx, an optional separator (at most one space, an optional dash, at
most one space), an optional second such year, a space, the company
string and arbitrary trailing text is matched by the pattern. -/
theorem claim8_first_letter_case (company a cop b y1 sep : Chars) (oy2 : Option Chars) (c : Chars)
    (hcop : cop = "Copyright".toList ∨ cop = "copyright".toList)
    (hb : ∀ ch ∈ b, ch ≠ '\n')
    (hy1 : isYearDigits y1 = true)
    (hsep : sep ∈ sepForms)
    (hy2 : ∀ y2, oy2 = some y2 → isYearDigits y2 = true) :
    searchCopyright company
        (a ++ cop ++ b ++ y1 ++ sep ++ oy2.getD [] ++ ' ' :: (company ++ c)) ≠ none := by
  have htail := tailMatch_forms company c sep oy2 hsep hy2
  rw [List.append_assoc] at htail
  have hpy := parseYear_year y1 (sep ++ (oy2.getD [] ++ ' ' :: (company ++ c))) hy1
  have hlz0 : lazyScan company
      (y1 ++ (sep ++ (oy2.getD [] ++ ' ' :: (company ++ c)))) ≠ none :=
    lazyScan_ne_of_hit company _ y1 _ hpy htail
  have hlz : lazyScan company
      (b ++ (y1 ++ (sep ++ (oy2.getD [] ++ ' ' :: (company ++ c))))) ≠ none :=
    lazyScan_append_ne company b _ hb hlz0
  have hC : "Copyright".toList = 'C' :: copTail := by decide
  have hc' : "copyright".toList = 'c' :: copTail := by decide
  have hm : matchCopyrightAt company
      (cop ++ (b ++ (y1 ++ (sep ++ (oy2.getD [] ++ ' ' :: (company ++ c)))))) ≠ none := by
    rcases hcop with h | h <;> rw [h]
    · rw [hC, List.cons_append]
      exact matchCopyrightAt_cop_ne company 'C' _ (Or.inl rfl) hlz
    · rw [hc', List.cons_append]
      exact matchCopyrightAt_cop_ne company 'c' _ (Or.inr rfl) hlz
  have hne : cop ++ (b ++ (y1 ++ (sep ++ (oy2.getD [] ++ ' ' :: (company ++ c))))) ≠ [] := by
    rcases hcop with h | h <;> rw [h] <;> simp
  have := searchCopyright_append_ne company a _ hm hne
  simpa [List.append_assoc] using this

theorem claim8_first_letter_case_witness :
    searchCopyright "Example Corp".toList
        ("# ".toList ++ "copyright".toList ++ " (C) ".toList ++ "2019".toList
          ++ [' ', '-', ' '] ++ (some "2021".toList).getD []
          ++ ' ' :: ("Example Corp".toList ++ ['\n'])) ≠ none :=
  claim8_first_letter_case "Example Corp".toList "# ".toList "copyright".toList
    " (C) ".toList "2019".toList [' ', '-', ' '] (some "2021".toList) ['\n']
    (Or.inr rfl) (by decide) (by decide) (by decide)
    (fun y2 h => (Option.some.inj h) ▸ (by decide))

/-! ### Scan decomposition and replacement lemmas -/

theorem matchCopyrightAt_none_head (company : Chars) (c : Char) (r : Chars)
    (h1 : c ≠ 'C') (h2 : c ≠ 'c') : matchCopyrightAt company (c :: r) = none := by
  simp [matchCopyrightAt, h1, h2]

theorem searchCopyright_skip (company u v : Chars)
    (hu : ∀ c ∈ u, c ≠ 'C' ∧ c ≠ 'c') :
    searchCopyright company (u ++ v) = searchCopyright company v := by
  induction u with
  | nil => rfl
  | cons c us ih =>
    have hc := hu c (List.mem_cons_self c us)
    have hus : ∀ x ∈ us, x ≠ 'C' ∧ x ≠ 'c' := fun x hx => hu x (List.mem_cons_of_mem c hx)
    show searchCopyright company (c :: (us ++ v)) = searchCopyright company v
    rw [searchCopyright, matchCopyrightAt_none_head company c _ hc.1 hc.2]
    exact ih hus

end Pontos
